import Mathlib

/-!
Verification of the embedding-cache / vector-index / search-engine core.

The development shallowly embeds the core modules:

* `cache_manager.py` — byte-level model of the SQLite-backed embedding cache.
  Float32 vectors are represented by their 32-bit bit patterns (`Nat < 2^32`);
  `tobytes` / `frombuffer` serialize them to little-endian byte lists exactly as
  `numpy.ndarray.tobytes` / `numpy.frombuffer(dtype=float32)` do.  The SHA256
  digest is abstracted as a parameter `hash : String → String`; the claims only
  use its determinism (definitional) and collision-freeness (a hypothesis).
* `utils.py` — keyword extraction, overlap computation and text previews.
  `re.findall(r"\b[a-z0-9]+\b", text.lower())` matches exactly the maximal runs
  of word characters that consist entirely of `[a-z0-9]`; word characters are
  modeled as ASCII alphanumerics plus underscore (the Unicode word classes of
  Python's `re` are abstracted to ASCII).  Python's `round(x, 3)` (round half
  to even) is modeled exactly over `ℚ`.
* `search_engine.py` — the lifecycle state machine and both search strategies.
  Vector arithmetic is modeled over exact rationals `ℚ`; `np.argsort` is
  modeled as a stable ascending sort of indices (numpy leaves the order of
  equal keys formally unspecified; its sort behaves stably on the arrays at
  issue, and any deterministic model yields the same conclusions about the
  reversed tie order).  The external FAISS `IndexFlatIP.search` is modeled
  from its documented behaviour: exact inner-product top-k, and when `k`
  exceeds `ntotal` the result rows are padded with label `-1` and `-FLT_MAX`.
  The cache-or-recompute interplay of `generate_embeddings` is modeled at the
  byte level (`generate_embeddings_cached` below); the engine-level lifecycle
  model records its observable effect, a matrix with one vector per document
  in document order.
* `embedder.py` — `normalize_embeddings` over the real numbers, with
  `np.linalg.norm` as `Real.sqrt` of the sum of squares.  The polymorphic
  definition is shared with the rational engine model, where the (irrational)
  square root is a parameter.
-/

/-! ### Byte-level float32 vectors (numpy tobytes / frombuffer) -/

/-- Little-endian serialization of one 32-bit word, as `ndarray.tobytes` emits
for a single float32 element (the word is the IEEE-754 bit pattern). -/
def encodeWord (w : Nat) : List Nat :=
  [w % 256, w / 256 % 256, w / 256 ^ 2 % 256, w / 256 ^ 3 % 256]

/-- Model of `embedding.tobytes()`: concatenation of the little-endian bytes of each
element. -/
def tobytes (v : List Nat) : List Nat :=
  v.flatMap encodeWord

/-- Decode a byte list four bytes at a time into 32-bit words (the element
reads performed by `np.frombuffer(..., dtype=np.float32)`). -/
def decodeWords : List Nat → List Nat
  | b0 :: b1 :: b2 :: b3 :: rest =>
      (b0 + 256 * b1 + 256 ^ 2 * b2 + 256 ^ 3 * b3) :: decodeWords rest
  | _ => []

/-- Model of `np.frombuffer(buf, dtype=np.float32)`: raises when the buffer length is
not a multiple of the 4-byte element size, otherwise yields the word list. -/
def frombuffer (b : List Nat) : Except String (List Nat) :=
  if b.length % 4 = 0 then .ok (decodeWords b)
  else .error "buffer size must be a multiple of element size"

/-! ### cache_manager.py -/

/-- One row of the `embeddings_cache` table: the content digest and the
embedding blob (`updated_at` carries no behaviour and is omitted). -/
structure CacheRow where
  digest : String
  emb : List Nat
deriving DecidableEq

/-- The table, keyed by the primary key `doc_id`. -/
abbrev Cache := List (String × CacheRow)

/-- Model of `SELECT embedding, hash FROM embeddings_cache WHERE doc_id = ?`. -/
def lookupCache : Cache → String → Option CacheRow
  | [], _ => none
  | (k, r) :: rest, id => if k = id then some r else lookupCache rest id

/-- Model of `CacheManager.save_embedding`: computes the content hash and performs
`INSERT OR REPLACE` of `(doc_id, embedding.tobytes(), hash)`. -/
def save_embedding (hash : String → String) (c : Cache) (doc_id text : String)
    (v : List Nat) : Cache :=
  (doc_id, ⟨hash text, tobytes v⟩) :: c.filter (fun e => !decide (e.1 = doc_id))

/-- Model of `CacheManager.check_cache`: returns `.ok none` on a miss (no row, stale
digest, or wrong decoded length), `.ok (some v)` on a hit, and `.error` only
if the stored blob cannot be read back by `frombuffer` (which raises in
Python). -/
def check_cache (hash : String → String) (c : Cache) (doc_id text : String)
    (embedding_dim : Nat) : Except String (Option (List Nat)) :=
  let current_hash := hash text
  match lookupCache c doc_id with
  | none => .ok none
  | some row =>
    if row.digest ≠ current_hash then .ok none
    else
      match frombuffer row.emb with
      | .error e => .error e
      | .ok v => if v.length ≠ embedding_dim then .ok none else .ok (some v)

/-- Every blob in the table has a length divisible by the float32 element
size.  Every row ever written by `save_embedding` satisfies this. -/
def WellFormedCache (c : Cache) : Prop :=
  ∀ e ∈ c, e.2.emb.length % 4 = 0

instance (c : Cache) : Decidable (WellFormedCache c) := by
  unfold WellFormedCache; infer_instance

/-! ### utils.py -/

/-- A word character of the regex `\b` boundary (`[A-Za-z0-9_]`; Unicode word
characters beyond ASCII are not modeled). -/
def isWordChar (ch : Char) : Bool :=
  ch.isAlphanum || ch == '_'

/-- A character of the class `[a-z0-9]`. -/
def isKeywordChar (ch : Char) : Bool :=
  (('a' ≤ ch && ch ≤ 'z') : Bool) || ch.isDigit

/-- Helper for `wordRuns`; `acc` is the in-progress run, reversed. -/
def wordRunsAux : List Char → List Char → List (List Char)
  | [], acc => if acc.isEmpty then [] else [acc.reverse]
  | c :: cs, acc =>
    if isWordChar c then wordRunsAux cs (c :: acc)
    else if acc.isEmpty then wordRunsAux cs []
    else acc.reverse :: wordRunsAux cs []

/-- The maximal runs of word characters of a string, in order. -/
def wordRuns (cs : List Char) : List (List Char) :=
  wordRunsAux cs []

/-- Python's `str.lower()` (per-character lowering; as with the word
classes, only the ASCII case mapping is modeled). -/
def pyLower (s : String) : String :=
  String.mk (s.data.map Char.toLower)

/-- Model of `utils.extract_keywords`: `re.findall(r"\b[a-z0-9]+\b", text.lower())`
keeps exactly the maximal word-character runs made only of `[a-z0-9]`, then
words shorter than `min_length` are dropped. -/
def extract_keywords (text : String) (min_length : Nat) : List String :=
  let words := ((wordRuns (pyLower text).data).filter (fun r => r.all isKeywordChar)).map
    (fun r => String.mk r)
  words.filter (fun w => decide (min_length ≤ w.length))

/-- Code-point comparison of characters, as Python compares strings. -/
def charLe (a b : Char) : Bool :=
  decide (a.toNat ≤ b.toNat)

/-- Lexicographic order on character lists by code point — the order Python's
`sorted` uses on strings. -/
def lexLe : List Char → List Char → Bool
  | [], _ => true
  | _ :: _, [] => false
  | a :: as, b :: bs => if a = b then lexLe as bs else charLe a b

/-- The string order used for the `sorted(...)` call of `compute_overlap`. -/
def strLe (a b : String) : Prop :=
  lexLe a.data b.data = true

instance : DecidableRel strLe := by
  unfold strLe
  infer_instance

/-- Round half to even to an integer (the rounding of Python's builtin
`round`), over exact rationals. -/
def roundHalfEven (y : ℚ) : ℤ :=
  let f := ⌊y⌋
  let r := y - (f : ℚ)
  if r < 1 / 2 then f
  else if 1 / 2 < r then f + 1
  else if f % 2 = 0 then f else f + 1

/-- Python's `round(x, 3)` modeled over `ℚ` (the float64 detour of the source
is abstracted to exact arithmetic). -/
def pyRound3 (x : ℚ) : ℚ :=
  (roundHalfEven (1000 * x) : ℚ) / 1000

/-- The dictionary returned by `utils.compute_overlap`. -/
structure OverlapInfo where
  overlapping_keywords : List String
  overlap_count : Nat
  overlap_ratio : ℚ
  query_keyword_count : Nat
  doc_keyword_count : Nat
deriving DecidableEq

/-- Model of `utils.compute_overlap`: set intersection of the two keyword lists,
reported sorted; the ratio `|intersection| / |query_set|` (0 for an empty
query set) is rounded to three decimals by `round(..., 3)`. -/
def compute_overlap (query_keywords doc_keywords : List String) : OverlapInfo :=
  let query_set := query_keywords.dedup
  let doc_set := doc_keywords.dedup
  let overlap := query_set.filter (fun s => decide (s ∈ doc_set))
  let ratio : ℚ :=
    if 0 < query_set.length then (overlap.length : ℚ) / query_set.length else 0
  { overlapping_keywords := List.insertionSort strLe overlap
    overlap_count := overlap.length
    overlap_ratio := pyRound3 ratio
    query_keyword_count := query_set.length
    doc_keyword_count := doc_set.length }

/-- Model of `utils.get_text_preview`. -/
def get_text_preview (text : String) (max_length : Nat) : String :=
  if text.length ≤ max_length then text
  else (text.take max_length) ++ "..."

/-! ### embedder.py — normalize_embeddings

`Embedder.normalize_embeddings` computes the per-row L2 norm
(`np.linalg.norm(..., axis=1, keepdims=True)`), substitutes 1 for zero norms
(`np.where(norms == 0, 1, norms)`), and divides each row by its (substituted)
norm.  The definition is polymorphic in the field so it can be read at `ℝ`
with the genuine `Real.sqrt` (for the norm claims) and at `ℚ` inside the
executable engine model, where the square root is a parameter because exact
rationals have no square roots. -/

/-- One row of `normalize_embeddings`. -/
def normalizeRow {α : Type} [Field α] [DecidableEq α] (sqrt : α → α)
    (row : List α) : List α :=
  let norm := sqrt ((row.map (fun x => x ^ 2)).sum)
  let norm' := if norm = 0 then 1 else norm
  row.map (fun x => x / norm')

/-- Model of `Embedder.normalize_embeddings`, row-wise over the embedding matrix. -/
def normalize_embeddings {α : Type} [Field α] [DecidableEq α] (sqrt : α → α)
    (rows : List (List α)) : List (List α) :=
  rows.map (normalizeRow sqrt)

/-- The L2 norm of a vector over the reals (`np.linalg.norm` of one row). -/
noncomputable def rowNorm (row : List ℝ) : ℝ :=
  Real.sqrt ((row.map (fun x => x ^ 2)).sum)

/-! ### search_engine.py — the two search strategies

Scores are exact rationals; `np.argsort` is modeled as a stable ascending
sort of the index list. -/

/-- Inner product of two equal-length vectors (`np.dot`). -/
def dotQ (v w : List ℚ) : ℚ :=
  (List.zipWith (fun a b => a * b) v w).sum

/-- Model of `np.argsort(scores)`: the indices of `scores` in ascending score order,
equal scores kept in ascending index order (stable sort; every stable sort
returns this one list). -/
def argsortAsc (scores : List ℚ) : List Nat :=
  List.insertionSort (fun i j => scores.getD i 0 ≤ scores.getD j 0)
    (List.range scores.length)

/-- Model of `SearchEngine._search_cosine`: all dot products against the stored
matrix, then `np.argsort(scores)[::-1][:top_k]`; returns `(scores, indices)`
like the source. -/
def search_cosine (embeddings : List (List ℚ)) (query_embedding : List ℚ)
    (top_k : Nat) : List ℚ × List Nat :=
  let scores := embeddings.map (fun e => dotQ e query_embedding)
  let top_indices := ((argsortAsc scores).reverse).take top_k
  (top_indices.map (fun i => scores.getD i 0), top_indices)

/-- The score FAISS pads missing result slots with for an inner-product
index: `-FLT_MAX = -(2^128 - 2^104)`. -/
def faissPadScore : ℚ :=
  -(340282346638528859811704183484516925440 : ℚ)

/-- Model of the external `faiss.IndexFlatIP.search` on the stored vectors
(exact inner-product top-k, documented FAISS behaviour): the `min k ntotal`
best labels in descending score order — ties in ascending label order, the
deterministic order the spec mandates — padded to `k` entries with label `-1`
and score `-FLT_MAX` when `k` exceeds `ntotal`. -/
def faissFlatSearch (stored : List (List ℚ)) (query : List ℚ) (k : Nat) :
    List ℚ × List Int :=
  let n := stored.length
  let scores := stored.map (fun e => dotQ e query)
  let order := (List.insertionSort (fun i j => scores.getD j 0 ≤ scores.getD i 0)
    (List.range n)).take (min k n)
  let pad := k - min k n
  (order.map (fun i => scores.getD i 0) ++ List.replicate pad faissPadScore,
   order.map (fun i => (i : Int)) ++ List.replicate pad (-1))

/-- Model of `SearchEngine._search_faiss`: delegates to the FAISS index. -/
def search_faiss (faiss_index : List (List ℚ)) (query_embedding : List ℚ)
    (top_k : Nat) : List ℚ × List Int :=
  faissFlatSearch faiss_index query_embedding top_k

/-! ### search_engine.py — lifecycle state machine and search -/

/-- A loaded document (the fields of the `load_text_files` records the engine
reads; the raw content and file path carry no engine behaviour). -/
structure Doc where
  doc_id : String
  filename : String
  content : String
  cleaned_length : Nat
deriving DecidableEq

/-- The mutable state of a `SearchEngine` instance. -/
structure EngineState where
  use_faiss : Bool
  documents : List Doc
  embeddings : Option (List (List ℚ))
  faiss_index : Option (List (List ℚ))
deriving DecidableEq

/-- The exceptions the engine can raise. -/
inductive EngineError where
  | valueError (msg : String)
  | attributeError (msg : String)
  | indexError (msg : String)
deriving DecidableEq

/-- Model of `SearchEngine.__init__` (FAISS taken as available, so `use_faiss` is the
constructor argument). -/
def SearchEngine.init (use_faiss : Bool) : EngineState :=
  ⟨use_faiss, [], none, none⟩

/-- Model of `SearchEngine.load_documents` with the documents produced by the
(excluded) document source; returns the updated state and the count. -/
def SearchEngine.load_documents (st : EngineState) (docs : List Doc) :
    EngineState × Nat :=
  ({ st with documents := docs }, docs.length)

/-- Model of `Embedder.embed_text`: raises on an empty (falsy) string, otherwise
embeds the lower-cased text through the external model `embedQ`. -/
def embed_textQ (embedQ : String → List ℚ) (text : String) :
    Except EngineError (List ℚ) :=
  if text = "" then .error (.valueError "Input text must be a non-empty string")
  else .ok (embedQ (pyLower text))

/-- Model of `SearchEngine.generate_embeddings` at the lifecycle level: raises when no
documents are loaded, otherwise installs one vector per document in document
order.  (The cache-or-recompute interplay is modeled at the byte level by
`generate_embeddings_cached` below; cached and fresh vectors are
indistinguishable to downstream consumers.) -/
def SearchEngine.generate_embeddings (embedQ : String → List ℚ)
    (st : EngineState) : Except EngineError EngineState :=
  if st.documents.isEmpty then
    .error (.valueError "No documents loaded. Call load_documents() first.")
  else
    match st.documents.mapM (fun d => embed_textQ embedQ d.content) with
    | .error e => .error e
    | .ok matrix => .ok { st with embeddings := some matrix }

/-- Model of `SearchEngine.build_vector_index`: raises when no embeddings exist;
otherwise `_build_faiss_index` normalizes the matrix into the FAISS index
(leaving `self.embeddings` untouched), while `_prepare_cosine_similarity`
overwrites `self.embeddings` with the normalized matrix. -/
def SearchEngine.build_vector_index (sqrtQ : ℚ → ℚ) (st : EngineState) :
    Except EngineError EngineState :=
  match st.embeddings with
  | none => .error (.valueError "No embeddings available. Call generate_embeddings() first.")
  | some matrix =>
    if st.use_faiss then
      .ok { st with faiss_index := some (normalize_embeddings sqrtQ matrix) }
    else
      .ok { st with embeddings := some (normalize_embeddings sqrtQ matrix) }

/-- Python list indexing: negative indices count from the end; anything out
of range raises `IndexError`. -/
def pyGet {α : Type} (l : List α) (i : Int) : Option α :=
  let j := if i < 0 then (l.length : Int) + i else i
  if 0 ≤ j then l.get? j.toNat else none

/-- One entry of the result list of `SearchEngine.search`.  The
`explanation` string of the source is pure formatting of the score band, the
overlap fields and the length category already present here and is not
modeled. -/
structure SearchResult where
  rank : Nat
  doc_id : String
  filename : String
  score : ℚ
  preview : String
  doc_length : Nat
  keywords_overlap : List String
  overlap_count : Nat
  overlap_ratio : ℚ
deriving DecidableEq

/-- The result-building loop of `SearchEngine.search`: for each
`(idx, score)` in rank order, index `self.documents[idx]` (Python indexing,
so FAISS's `-1` padding label reads the last document) and assemble the
result record. -/
def buildResults (documents : List Doc) (query_keywords : List String) :
    List (Int × ℚ) → Nat → Except EngineError (List SearchResult)
  | [], _ => .ok []
  | (idx, score) :: rest, rank =>
    match pyGet documents idx with
    | none => .error (.indexError "list index out of range")
    | some doc =>
      let overlap_info := compute_overlap query_keywords (extract_keywords doc.content 3)
      match buildResults documents query_keywords rest (rank + 1) with
      | .error e => .error e
      | .ok rs =>
        .ok ({ rank := rank + 1
               doc_id := doc.doc_id
               filename := doc.filename
               score := score
               preview := get_text_preview doc.content 150
               doc_length := doc.cleaned_length
               keywords_overlap := overlap_info.overlapping_keywords
               overlap_count := overlap_info.overlap_count
               overlap_ratio := overlap_info.overlap_ratio } :: rs)

/-- Model of `SearchEngine.search`: guards only on `self.embeddings is None`, embeds
and normalizes the query, dispatches on the strategy (`self.faiss_index` is
`None` before `_build_faiss_index`, so the FAISS call raises
`AttributeError` then), and builds the ranked results. -/
def SearchEngine.search (sqrtQ : ℚ → ℚ) (embedQ : String → List ℚ)
    (st : EngineState) (query : String) (top_k : Nat) :
    Except EngineError (List SearchResult) :=
  match st.embeddings with
  | none => .error (.valueError "Search index not built. Call build_vector_index() first.")
  | some embs =>
    match embed_textQ embedQ query with
    | .error e => .error e
    | .ok qe =>
      let query_embedding := (normalize_embeddings sqrtQ [qe]).headD []
      let searched : Except EngineError (List ℚ × List Int) :=
        if st.use_faiss then
          match st.faiss_index with
          | none => .error (.attributeError "NoneType object has no attribute search")
          | some ix => .ok (search_faiss ix query_embedding top_k)
        else
          let sr := search_cosine embs query_embedding top_k
          .ok (sr.1, sr.2.map (fun i => (i : Int)))
      match searched with
      | .error e => .error e
      | .ok (scores, indices) =>
        buildResults st.documents (extract_keywords query 3) (indices.zip scores) 0

/-! ### search_engine.py — generate_embeddings against the byte-level cache

The faithful per-document loop of `SearchEngine.generate_embeddings`: on a
cache hit the cached vector is reused, on a miss the external embedder is
invoked and the result written through `save_embedding`.  Vectors are float32
bit-pattern words as in the cache layer; `embed` is the external embedding
capability (deterministic per spec §6).  Returns the embedding matrix, the
final cache, and the hit and miss counters. -/

/-- The document loop of `SearchEngine.generate_embeddings`. -/
def generate_embeddings_cached (hash : String → String) (embed : String → List Nat)
    (embedding_dim : Nat) (force_regenerate : Bool) :
    List Doc → Cache → Except String (List (List Nat) × Cache × Nat × Nat)
  | [], c => .ok ([], c, 0, 0)
  | d :: rest, c =>
    if force_regenerate then
      match generate_embeddings_cached hash embed embedding_dim force_regenerate rest
          (save_embedding hash c d.doc_id d.content (embed d.content)) with
      | .error e => .error e
      | .ok (m, cf, hits, misses) => .ok (embed d.content :: m, cf, hits, misses + 1)
    else
      match check_cache hash c d.doc_id d.content embedding_dim with
      | .error e => .error e
      | .ok (some v) =>
        match generate_embeddings_cached hash embed embedding_dim force_regenerate rest c with
        | .error e => .error e
        | .ok (m, cf, hits, misses) => .ok (v :: m, cf, hits + 1, misses)
      | .ok none =>
        match generate_embeddings_cached hash embed embedding_dim force_regenerate rest
            (save_embedding hash c d.doc_id d.content (embed d.content)) with
        | .error e => .error e
        | .ok (m, cf, hits, misses) => .ok (embed d.content :: m, cf, hits, misses + 1)

/-- Model of `SearchEngine.generate_embeddings` with its no-documents guard, at the
byte level. -/
def generate_embeddings (hash : String → String) (embed : String → List Nat)
    (embedding_dim : Nat) (force_regenerate : Bool) (docs : List Doc) (c : Cache) :
    Except String (List (List Nat) × Cache × Nat × Nat) :=
  if docs.isEmpty then .error "No documents loaded. Call load_documents() first."
  else generate_embeddings_cached hash embed embedding_dim force_regenerate docs c

/-- The per-document cache-hit relation: the matrix pairs each document with
the vector `check_cache` returns for it. -/
def CacheHits (hash : String → String) (embedding_dim : Nat) (c : Cache)
    (docs : List Doc) (m : List (List Nat)) : Prop :=
  List.Forall₂
    (fun d v => check_cache hash c d.doc_id d.content embedding_dim = .ok (some v)) docs m

/-! ### Helper lemmas: the byte layer -/

theorem tobytes_length (v : List Nat) : (tobytes v).length = 4 * v.length := by
  induction v with
  | nil => simp [tobytes]
  | cons w v ih =>
    simp only [tobytes, List.flatMap_cons, List.length_append, encodeWord,
      List.length_cons, List.length_nil] at ih ⊢
    omega

theorem decodeWords_tobytes (v : List Nat) (h : ∀ w ∈ v, w < 2 ^ 32) :
    decodeWords (tobytes v) = v := by
  induction v with
  | nil => simp [tobytes, decodeWords]
  | cons w v ih =>
    have hw : w < 2 ^ 32 := h w (List.mem_cons_self w v)
    have hrest : ∀ x ∈ v, x < 2 ^ 32 := fun x hx => h x (List.mem_cons_of_mem w hx)
    have hsplit : tobytes (w :: v) = encodeWord w ++ tobytes v := by
      simp [tobytes]
    rw [hsplit]
    simp only [encodeWord, List.cons_append, decodeWords, List.append_eq,
      List.nil_append]
    rw [ih hrest]
    congr 1
    norm_num
    omega

/-! ### Helper lemmas: cache lookup and update -/

theorem lookupCache_filter_ne (c : Cache) (id id' : String) (h : id' ≠ id) :
    lookupCache (c.filter (fun e => !decide (e.1 = id))) id' = lookupCache c id' := by
  induction c with
  | nil => simp [lookupCache]
  | cons e rest ih =>
    obtain ⟨k, r⟩ := e
    by_cases hk : k = id
    · subst hk
      have hne : ¬ k = id' := fun hh => h hh.symm
      simp [lookupCache, hne, ih]
    · by_cases hk' : k = id'
      · subst hk'
        simp [lookupCache, hk]
      · simp [lookupCache, hk, hk', ih]

theorem lookupCache_save_self (hash : String → String) (c : Cache) (id t : String)
    (v : List Nat) :
    lookupCache (save_embedding hash c id t v) id = some ⟨hash t, tobytes v⟩ := by
  simp [save_embedding, lookupCache]

theorem lookupCache_save_other (hash : String → String) (c : Cache) (id t : String)
    (v : List Nat) (id' : String) (h : id' ≠ id) :
    lookupCache (save_embedding hash c id t v) id' = lookupCache c id' := by
  have hne : ¬ id = id' := fun hh => h hh.symm
  simp only [save_embedding, lookupCache, if_neg hne]
  exact lookupCache_filter_ne c id id' h

theorem lookupCache_mem (c : Cache) (id : String) (row : CacheRow)
    (h : lookupCache c id = some row) : (id, row) ∈ c := by
  induction c with
  | nil => simp [lookupCache] at h
  | cons e rest ih =>
    obtain ⟨k, r⟩ := e
    by_cases hk : k = id
    · subst hk
      simp only [lookupCache, if_true, eq_self_iff_true, Option.some.injEq] at h
      subst h
      exact List.mem_cons_self _ _
    · simp only [lookupCache, if_neg hk] at h
      exact List.mem_cons_of_mem _ (ih h)

theorem wellFormed_save (hash : String → String) (c : Cache) (id t : String)
    (v : List Nat) (hWF : WellFormedCache c) :
    WellFormedCache (save_embedding hash c id t v) := by
  intro e he
  simp only [save_embedding, List.mem_cons] at he
  rcases he with he | he
  · subst he
    simp only [tobytes_length]
    omega
  · exact hWF e (List.mem_of_mem_filter he)

/-- Functional characterization of `check_cache` on a well-formed cache:
never an error, a hit exactly when a row exists whose digest matches the
current content hash and whose decoded vector has the expected length. -/
theorem check_cache_eq (hash : String → String) (c : Cache) (doc_id text : String)
    (dim : Nat) (hWF : WellFormedCache c) :
    check_cache hash c doc_id text dim = .ok (
      match lookupCache c doc_id with
      | none => none
      | some row =>
        if row.digest = hash text ∧ (decodeWords row.emb).length = dim
        then some (decodeWords row.emb) else none) := by
  unfold check_cache
  cases hlk : lookupCache c doc_id with
  | none => simp
  | some row =>
    have hmem := lookupCache_mem c doc_id row hlk
    have hlen : row.emb.length % 4 = 0 := hWF _ hmem
    simp only [frombuffer, if_pos hlen]
    by_cases hd : row.digest = hash text
    · by_cases hl : (decodeWords row.emb).length = dim
      · simp [hd, hl]
      · simp [hd, hl]
    · simp [hd]

theorem check_cache_congr (hash : String → String) (c₁ c₂ : Cache)
    (doc_id text : String) (dim : Nat)
    (h : lookupCache c₁ doc_id = lookupCache c₂ doc_id) :
    check_cache hash c₁ doc_id text dim = check_cache hash c₂ doc_id text dim := by
  unfold check_cache
  rw [h]

/-- A freshly saved embedding is always a cache hit for the same content and
its own dimension. -/
theorem check_cache_save_hit (hash : String → String) (c : Cache) (doc_id text : String)
    (v : List Nat) (dim : Nat) (hdim : v.length = dim) (hv : ∀ w ∈ v, w < 2 ^ 32) :
    check_cache hash (save_embedding hash c doc_id text v) doc_id text dim =
      .ok (some v) := by
  unfold check_cache
  rw [lookupCache_save_self]
  have hb : (tobytes v).length % 4 = 0 := by
    simp [tobytes_length]
  simp only [frombuffer, if_pos hb, decodeWords_tobytes v hv, hdim]
  simp

/-! ### Helper lemmas: the embedding-generation loop -/

/-- A pass over documents that are all cache hits consumes no embeddings,
writes nothing, and returns the paired vectors. -/
theorem generate_cached_of_hits (hash : String → String) (embed : String → List Nat)
    (dim : Nat) (docs : List Doc) (c : Cache) (m : List (List Nat))
    (h : CacheHits hash dim c docs m) :
    generate_embeddings_cached hash embed dim false docs c =
      .ok (m, c, docs.length, 0) := by
  unfold CacheHits at h
  induction h with
  | nil => simp [generate_embeddings_cached]
  | cons hd htail ih =>
    simp [generate_embeddings_cached, hd, ih]

/-- After one pass of the loop over a well-formed cache with distinct
doc_ids, the final cache is well formed, rows of untouched doc_ids are
unchanged, and every processed document is a cache hit yielding exactly its
row of the returned matrix. -/
theorem generate_cached_spec (hash : String → String) (embed : String → List Nat)
    (dim : Nat) (docs : List Doc) :
    ∀ c : Cache, WellFormedCache c →
    (docs.map Doc.doc_id).Nodup →
    (∀ d ∈ docs, (embed d.content).length = dim) →
    (∀ d ∈ docs, ∀ w ∈ embed d.content, w < 2 ^ 32) →
    ∀ m cf hits misses,
      generate_embeddings_cached hash embed dim false docs c = .ok (m, cf, hits, misses) →
      WellFormedCache cf
      ∧ (∀ id, id ∉ docs.map Doc.doc_id → lookupCache cf id = lookupCache c id)
      ∧ CacheHits hash dim cf docs m := by
  induction docs with
  | nil =>
    intro c hWF _ _ _ m cf hits misses hrun
    simp only [generate_embeddings_cached, Except.ok.injEq, Prod.mk.injEq] at hrun
    obtain ⟨rfl, rfl, rfl, rfl⟩ := hrun
    exact ⟨hWF, fun id _ => rfl, List.Forall₂.nil⟩
  | cons d ds ih =>
    intro c hWF hnd hdim hw m cf hits misses hrun
    have hndd : d.doc_id ∉ ds.map Doc.doc_id := by
      simp only [List.map_cons, List.nodup_cons] at hnd
      exact hnd.1
    have hnds : (ds.map Doc.doc_id).Nodup := by
      simp only [List.map_cons, List.nodup_cons] at hnd
      exact hnd.2
    have hdimd : (embed d.content).length = dim := hdim d (List.mem_cons_self _ _)
    have hwd : ∀ w ∈ embed d.content, w < 2 ^ 32 := hw d (List.mem_cons_self _ _)
    have hdims : ∀ x ∈ ds, (embed x.content).length = dim :=
      fun x hx => hdim x (List.mem_cons_of_mem _ hx)
    have hws : ∀ x ∈ ds, ∀ w ∈ embed x.content, w < 2 ^ 32 :=
      fun x hx => hw x (List.mem_cons_of_mem _ hx)
    cases hcc : check_cache hash c d.doc_id d.content dim with
    | error e =>
      rw [check_cache_eq hash c d.doc_id d.content dim hWF] at hcc
      exact Except.noConfusion hcc
    | ok res =>
      cases res with
      | some v =>
        simp only [generate_embeddings_cached, Bool.false_eq_true, if_false, hcc] at hrun
        cases hrec : generate_embeddings_cached hash embed dim false ds c with
        | error e =>
          rw [hrec] at hrun
          simp at hrun
        | ok out =>
          obtain ⟨m', cf', hits', misses'⟩ := out
          rw [hrec] at hrun
          simp only [Except.ok.injEq, Prod.mk.injEq] at hrun
          obtain ⟨rfl, rfl, rfl, rfl⟩ := hrun
          obtain ⟨hWFf, hpres, hhits⟩ := ih c hWF hnds hdims hws m' cf' hits' misses' hrec
          refine ⟨hWFf, ?_, ?_⟩
          · intro id hid
            have hid2 : id ∉ ds.map Doc.doc_id := by
              simp only [List.map_cons, List.mem_cons] at hid
              tauto
            exact hpres id hid2
          · refine List.Forall₂.cons ?_ hhits
            have hlk : lookupCache cf' d.doc_id = lookupCache c d.doc_id :=
              hpres d.doc_id hndd
            rw [check_cache_congr hash cf' c d.doc_id d.content dim hlk]
            exact hcc
      | none =>
        simp only [generate_embeddings_cached, Bool.false_eq_true, if_false, hcc] at hrun
        cases hrec : generate_embeddings_cached hash embed dim false ds
            (save_embedding hash c d.doc_id d.content (embed d.content)) with
        | error e =>
          rw [hrec] at hrun
          simp at hrun
        | ok out =>
          obtain ⟨m', cf', hits', misses'⟩ := out
          rw [hrec] at hrun
          simp only [Except.ok.injEq, Prod.mk.injEq] at hrun
          obtain ⟨rfl, rfl, rfl, rfl⟩ := hrun
          have hWF2 := wellFormed_save hash c d.doc_id d.content (embed d.content) hWF
          obtain ⟨hWFf, hpres, hhits⟩ := ih _ hWF2 hnds hdims hws m' cf' hits' misses' hrec
          refine ⟨hWFf, ?_, ?_⟩
          · intro id hid
            have hid1 : id ≠ d.doc_id := by
              simp only [List.map_cons, List.mem_cons] at hid
              tauto
            have hid2 : id ∉ ds.map Doc.doc_id := by
              simp only [List.map_cons, List.mem_cons] at hid
              tauto
            rw [hpres id hid2,
              lookupCache_save_other hash c d.doc_id d.content (embed d.content) id hid1]
          · refine List.Forall₂.cons ?_ hhits
            have hlk : lookupCache cf' d.doc_id =
                lookupCache (save_embedding hash c d.doc_id d.content (embed d.content))
                  d.doc_id :=
              hpres d.doc_id hndd
            rw [check_cache_congr hash cf' _ d.doc_id d.content dim hlk]
            exact check_cache_save_hit hash c d.doc_id d.content (embed d.content) dim
              hdimd hwd

/-! ### Claims about the embedding cache -/

/-- C1: on a well-formed cache `check_cache` never raises; it returns the
stored vector exactly when a row exists for the doc_id whose stored digest
equals the hash of the given content and whose decoded vector has the
expected dimension, and returns a miss (`none`) under any mismatch.  In
particular (given a collision-free hash) `save_embedding` with one text
followed by `check_cache` with a different text is a miss. -/
theorem claim1_check_cache_hit_iff (hash : String → String)
    (hinj : Function.Injective hash) (c : Cache) (hWF : WellFormedCache c)
    (doc_id text : String) (dim : Nat) :
    (check_cache hash c doc_id text dim = .ok (
      match lookupCache c doc_id with
      | none => none
      | some row =>
        if row.digest = hash text ∧ (decodeWords row.emb).length = dim
        then some (decodeWords row.emb) else none))
    ∧ (∀ text1 text2 : String, ∀ v : List Nat, text1 ≠ text2 →
        check_cache hash (save_embedding hash c doc_id text1 v) doc_id text2 v.length =
          .ok none) := by
  refine ⟨check_cache_eq hash c doc_id text dim hWF, ?_⟩
  intro t1 t2 v hne
  have hh : hash t1 ≠ hash t2 := fun h => hne (hinj h)
  unfold check_cache
  rw [lookupCache_save_self]
  simp [hh]

/-- Witness for C1: the identity hash on a concrete one-row cache. -/
theorem claim1_witness :
    Function.Injective (fun s : String => s)
    ∧ WellFormedCache [("doc1", ⟨"text1", [7, 0, 0, 0]⟩)]
    ∧ ((check_cache (fun s : String => s) [("doc1", ⟨"text1", [7, 0, 0, 0]⟩)]
          "doc1" "text1" 1 = .ok (
        match lookupCache [("doc1", ⟨"text1", [7, 0, 0, 0]⟩)] "doc1" with
        | none => none
        | some row =>
          if row.digest = (fun s : String => s) "text1" ∧ (decodeWords row.emb).length = 1
          then some (decodeWords row.emb) else none))
      ∧ (∀ text1 text2 : String, ∀ v : List Nat, text1 ≠ text2 →
          check_cache (fun s : String => s)
            (save_embedding (fun s : String => s) [("doc1", ⟨"text1", [7, 0, 0, 0]⟩)]
              "doc1" text1 v)
            "doc1" text2 v.length = .ok none)) :=
  ⟨fun a b h => h, by decide,
    claim1_check_cache_hit_iff (fun s : String => s) (fun a b h => h)
      [("doc1", ⟨"text1", [7, 0, 0, 0]⟩)] (by decide) "doc1" "text1" 1⟩

/-- C6: `save_embedding` followed by `check_cache` with the same text and the
vector's own dimension returns the vector unchanged — the tobytes/frombuffer
round trip is exact for 32-bit words. -/
theorem claim6_put_get_roundtrip (hash : String → String) (c : Cache)
    (doc_id text : String) (v : List Nat) (hv : ∀ w ∈ v, w < 2 ^ 32) :
    check_cache hash (save_embedding hash c doc_id text v) doc_id text v.length =
      .ok (some v) :=
  check_cache_save_hit hash c doc_id text v v.length rfl hv

/-- Witness for C6 on a concrete two-element vector (including the largest
32-bit word). -/
theorem claim6_witness :
    (∀ w ∈ [(7 : Nat), 4294967295], w < 2 ^ 32)
    ∧ check_cache (fun s : String => s)
        (save_embedding (fun s : String => s) [] "doc1" "some text" [7, 4294967295])
        "doc1" "some text" ([(7 : Nat), 4294967295].length) = .ok (some [7, 4294967295]) :=
  ⟨by decide,
    claim6_put_get_roundtrip (fun s : String => s) [] "doc1" "some text"
      [7, 4294967295] (by decide)⟩

/-- C4: under distinct doc_ids and a dimension-correct external embedder, a
second `generate_embeddings` run right after a first one returns the
identical embedding matrix, leaves the cache untouched, and serves every
document from the cache (hits = document count, misses = 0). -/
theorem claim4_generate_embeddings_idempotent (hash : String → String)
    (embed : String → List Nat) (dim : Nat) (docs : List Doc) (c : Cache)
    (hWF : WellFormedCache c)
    (hnd : (docs.map Doc.doc_id).Nodup)
    (hdim : ∀ d ∈ docs, (embed d.content).length = dim)
    (hw : ∀ d ∈ docs, ∀ w ∈ embed d.content, w < 2 ^ 32)
    (m1 : List (List Nat)) (c1 : Cache) (hits1 misses1 : Nat)
    (hrun : generate_embeddings hash embed dim false docs c = .ok (m1, c1, hits1, misses1)) :
    generate_embeddings hash embed dim false docs c1 = .ok (m1, c1, docs.length, 0) := by
  unfold generate_embeddings at hrun ⊢
  by_cases hempty : docs.isEmpty
  · rw [if_pos hempty] at hrun
    exact Except.noConfusion hrun
  · rw [if_neg hempty] at hrun ⊢
    obtain ⟨-, -, hhits⟩ :=
      generate_cached_spec hash embed dim docs c hWF hnd hdim hw m1 c1 hits1 misses1 hrun
    exact generate_cached_of_hits hash embed dim docs c1 m1 hhits

/-- Witness for C4: one document, empty initial cache; the first run misses
and writes, the second run is a pure cache hit returning the same matrix. -/
theorem claim4_witness :
    WellFormedCache []
    ∧ (([(⟨"d1", "d1.txt", "hello world", 11⟩ : Doc)].map Doc.doc_id).Nodup)
    ∧ generate_embeddings (fun s : String => s) (fun _ : String => [7]) 1 false
        [⟨"d1", "d1.txt", "hello world", 11⟩] [] =
        .ok ([[7]], [("d1", ⟨"hello world", [7, 0, 0, 0]⟩)], 0, 1)
    ∧ generate_embeddings (fun s : String => s) (fun _ : String => [7]) 1 false
        [⟨"d1", "d1.txt", "hello world", 11⟩] [("d1", ⟨"hello world", [7, 0, 0, 0]⟩)] =
        .ok ([[7]], [("d1", ⟨"hello world", [7, 0, 0, 0]⟩)], 1, 0) :=
  ⟨by decide, by decide, by rfl,
    claim4_generate_embeddings_idempotent (fun s : String => s) (fun _ : String => [7]) 1
      [⟨"d1", "d1.txt", "hello world", 11⟩] [] (by decide) (by decide)
      (by decide) (by decide) [[7]] [("d1", ⟨"hello world", [7, 0, 0, 0]⟩)] 0 1 (by rfl)⟩

/-! ### Helper lemmas: sums of squares over the reals -/

theorem sumSq_nonneg (row : List ℝ) : 0 ≤ (row.map (fun x => x ^ 2)).sum := by
  apply List.sum_nonneg
  intro x hx
  simp only [List.mem_map] at hx
  obtain ⟨y, -, rfl⟩ := hx
  positivity

theorem sumSq_eq_zero (row : List ℝ) (h : (row.map (fun x => x ^ 2)).sum = 0) :
    ∀ x ∈ row, x = 0 := by
  induction row with
  | nil => simp
  | cons a l ih =>
    simp only [List.map_cons, List.sum_cons] at h
    have h1 : 0 ≤ a ^ 2 := sq_nonneg a
    have h2 : 0 ≤ (l.map (fun x => x ^ 2)).sum := sumSq_nonneg l
    have ha : a ^ 2 = 0 := by linarith
    have hl : (l.map (fun x => x ^ 2)).sum = 0 := by linarith
    intro x hx
    rcases List.mem_cons.mp hx with rfl | hx
    · exact (pow_eq_zero_iff (two_ne_zero)).mp ha
    · exact ih hl x hx

theorem sumSq_map_div (row : List ℝ) (n : ℝ) :
    ((row.map (fun x => x / n)).map (fun x => x ^ 2)).sum =
      ((row.map (fun x => x ^ 2)).sum) / n ^ 2 := by
  induction row with
  | nil => simp
  | cons a l ih =>
    simp only [List.map_cons, List.sum_cons, ih]
    rw [div_pow]
    ring

/-! ### Claims about normalization -/

/-- C10: `normalize_embeddings` is a total row-wise map and never divides by
zero: the zero-norm guard substitutes 1, so a row of L2 norm zero —
necessarily the all-zero vector — passes through normalization unchanged. -/
theorem claim10_normalize_zero_row_passthrough (E : List (List ℝ)) (row : List ℝ)
    (h : rowNorm row = 0) :
    normalize_embeddings Real.sqrt E = E.map (normalizeRow Real.sqrt)
    ∧ normalizeRow Real.sqrt row = row
    ∧ ∀ x ∈ row, x = 0 := by
  have hs : ((row.map (fun x => x ^ 2)).sum) = 0 := by
    have hnn := sumSq_nonneg row
    rw [rowNorm] at h
    exact (Real.sqrt_eq_zero hnn).mp h
  refine ⟨rfl, ?_, sumSq_eq_zero row hs⟩
  have hn : Real.sqrt ((row.map (fun x => x ^ 2)).sum) = 0 := h
  unfold normalizeRow
  simp [hn]

/-- Witness for C10 at the concrete zero row. -/
theorem claim10_witness :
    rowNorm [(0 : ℝ), 0] = 0
    ∧ (normalize_embeddings Real.sqrt [[(0 : ℝ), 0]] =
        [[(0 : ℝ), 0]].map (normalizeRow Real.sqrt)
      ∧ normalizeRow Real.sqrt [(0 : ℝ), 0] = [(0 : ℝ), 0]
      ∧ ∀ x ∈ [(0 : ℝ), 0], x = 0) := by
  have h0 : rowNorm [(0 : ℝ), 0] = 0 := by
    simp [rowNorm]
  exact ⟨h0, claim10_normalize_zero_row_passthrough [[(0 : ℝ), 0]] [(0 : ℝ), 0] h0⟩

/-- C5 counterexample: an index built from a zero embedding row holds the
zero vector, whose L2 norm 0 is not within 1e-5 of 1, so the claimed
invariant fails for it. -/
theorem claim5_counterexample :
    normalize_embeddings Real.sqrt [[(0 : ℝ), 0]] = [[(0 : ℝ), 0]]
    ∧ [(0 : ℝ), 0] ∈ normalize_embeddings Real.sqrt [[(0 : ℝ), 0]]
    ∧ rowNorm [(0 : ℝ), 0] = 0
    ∧ ¬ |rowNorm [(0 : ℝ), 0] - 1| ≤ 1 / 100000 := by
  have h0 : rowNorm [(0 : ℝ), 0] = 0 := by
    simp [rowNorm]
  have hnorm : normalize_embeddings Real.sqrt [[(0 : ℝ), 0]] = [[(0 : ℝ), 0]] := by
    unfold normalize_embeddings normalizeRow
    simp
  refine ⟨hnorm, by rw [hnorm]; exact List.mem_cons_self _ _, h0, ?_⟩
  rw [h0, show (0 : ℝ) - 1 = -1 by ring, abs_neg, abs_one]
  norm_num

/-- C5 (amended): every input row of nonzero L2 norm is held by the built
index (in either strategy) as its normalization, whose L2 norm is exactly 1
and in particular within 1e-5 of 1; rows of zero norm are the only
exception (C10). -/
theorem claim5_unit_norm_after_build (E : List (List ℝ)) (row : List ℝ)
    (hmem : row ∈ E) (h : rowNorm row ≠ 0) :
    normalizeRow Real.sqrt row ∈ normalize_embeddings Real.sqrt E
    ∧ rowNorm (normalizeRow Real.sqrt row) = 1
    ∧ |rowNorm (normalizeRow Real.sqrt row) - 1| ≤ 1 / 100000 := by
  have hpos : 0 < (row.map (fun x => x ^ 2)).sum := by
    rcases lt_or_eq_of_le (sumSq_nonneg row) with hlt | heq
    · exact hlt
    · exfalso
      apply h
      rw [rowNorm, ← heq, Real.sqrt_zero]
  have hnpos : 0 < rowNorm row := Real.sqrt_pos.mpr hpos
  have hrew : normalizeRow Real.sqrt row = row.map (fun x => x / rowNorm row) := by
    have hdef : rowNorm row = Real.sqrt ((row.map (fun x => x ^ 2)).sum) := rfl
    unfold normalizeRow
    simp only [← hdef, if_neg h]
  have hone : rowNorm (normalizeRow Real.sqrt row) = 1 := by
    rw [hrew, rowNorm, sumSq_map_div, Real.sqrt_div (sumSq_nonneg row),
      Real.sqrt_sq hnpos.le,
      show Real.sqrt ((row.map (fun x => x ^ 2)).sum) = rowNorm row from rfl]
    exact div_self (ne_of_gt hnpos)
  refine ⟨?_, hone, ?_⟩
  · unfold normalize_embeddings
    exact List.mem_map_of_mem _ hmem
  · rw [hone]
    norm_num

/-- Witness for C5 (amended) at the concrete row `[3, 4]` of norm 5. -/
theorem claim5_witness :
    [(3 : ℝ), 4] ∈ [[(3 : ℝ), 4]]
    ∧ rowNorm [(3 : ℝ), 4] ≠ 0
    ∧ (normalizeRow Real.sqrt [(3 : ℝ), 4] ∈
        normalize_embeddings Real.sqrt [[(3 : ℝ), 4]]
      ∧ rowNorm (normalizeRow Real.sqrt [(3 : ℝ), 4]) = 1
      ∧ |rowNorm (normalizeRow Real.sqrt [(3 : ℝ), 4]) - 1| ≤ 1 / 100000) := by
  have hne : rowNorm [(3 : ℝ), 4] ≠ 0 := by
    rw [rowNorm, Real.sqrt_ne_zero']
    norm_num
  exact ⟨List.mem_cons_self _ _, hne,
    claim5_unit_norm_after_build [[(3 : ℝ), 4]] [(3 : ℝ), 4] (List.mem_cons_self _ _) hne⟩

/-! ### Claims about the search strategies and the engine lifecycle -/

/-- C2: on tied scores the brute-force strategy (`np.argsort` ascending,
then `[::-1]`) ranks the HIGHER original index first, while the flat-index
strategy keeps ascending original index, so the mandated ascending tie-break
fails for the cosine backend and the two backends return different ranked
orders on the same normalized vectors and query. -/
theorem claim2_tie_break_divergence :
    search_cosine [[(1 : ℚ), 0], [1, 0]] [1, 0] 2 = ([1, 1], [1, 0])
    ∧ search_faiss [[(1 : ℚ), 0], [1, 0]] [1, 0] 2 = ([1, 1], [0, 1]) := by
  constructor
  · with_unfolding_all decide
  · with_unfolding_all decide

/-- C3: the NotReady guard of `search` tests only `self.embeddings`, which
`generate_embeddings` already sets; before `build_vector_index` has ever run,
the cosine-strategy engine answers a search normally (over the unnormalized
matrix) instead of failing with the NotReady `ValueError`, and the
FAISS-strategy engine raises `AttributeError` on the absent index instead. -/
theorem claim3_search_succeeds_before_index_built :
    SearchEngine.generate_embeddings (fun _ => [1, 0])
        (SearchEngine.load_documents (SearchEngine.init false)
          [⟨"doc1", "doc1.txt", "machine learning", 16⟩]).1 =
      .ok ⟨false, [⟨"doc1", "doc1.txt", "machine learning", 16⟩], some [[1, 0]], none⟩
    ∧ SearchEngine.search (fun q => q) (fun _ => [1, 0])
        ⟨false, [⟨"doc1", "doc1.txt", "machine learning", 16⟩], some [[1, 0]], none⟩
        "machine" 5 =
      .ok [⟨1, "doc1", "doc1.txt", 1, "machine learning", 16, ["machine"], 1, 1⟩]
    ∧ SearchEngine.generate_embeddings (fun _ => [1, 0])
        (SearchEngine.load_documents (SearchEngine.init true)
          [⟨"doc1", "doc1.txt", "machine learning", 16⟩]).1 =
      .ok ⟨true, [⟨"doc1", "doc1.txt", "machine learning", 16⟩], some [[1, 0]], none⟩
    ∧ SearchEngine.search (fun q => q) (fun _ => [1, 0])
        ⟨true, [⟨"doc1", "doc1.txt", "machine learning", 16⟩], some [[1, 0]], none⟩
        "machine" 5 =
      .error (.attributeError "NoneType object has no attribute search") := by
  refine ⟨by with_unfolding_all rfl, by with_unfolding_all rfl, by with_unfolding_all rfl,
    by with_unfolding_all rfl⟩

/-- C7: with the FAISS strategy, a `top_k` above the stored count is passed
through to the index, which pads with label `-1`; Python's negative indexing
then reads the LAST document, so `search` returns `top_k` results (the last
document duplicated at the sentinel score `-FLT_MAX`) instead of exactly
`document_count`; the brute-force strategy returns exactly one result on the
same state. -/
theorem claim7_topk_above_document_count :
    SearchEngine.build_vector_index (fun q => q)
        ⟨true, [⟨"doc1", "doc1.txt", "machine learning", 16⟩], some [[1, 0]], none⟩ =
      .ok ⟨true, [⟨"doc1", "doc1.txt", "machine learning", 16⟩], some [[1, 0]],
        some [[1, 0]]⟩
    ∧ SearchEngine.search (fun q => q) (fun _ => [1, 0])
        ⟨true, [⟨"doc1", "doc1.txt", "machine learning", 16⟩], some [[1, 0]],
          some [[1, 0]]⟩ "machine" 2 =
      .ok [⟨1, "doc1", "doc1.txt", 1, "machine learning", 16, ["machine"], 1, 1⟩,
        ⟨2, "doc1", "doc1.txt", faissPadScore, "machine learning", 16, ["machine"], 1, 1⟩]
    ∧ SearchEngine.build_vector_index (fun q => q)
        ⟨false, [⟨"doc1", "doc1.txt", "machine learning", 16⟩], some [[1, 0]], none⟩ =
      .ok ⟨false, [⟨"doc1", "doc1.txt", "machine learning", 16⟩], some [[1, 0]], none⟩
    ∧ SearchEngine.search (fun q => q) (fun _ => [1, 0])
        ⟨false, [⟨"doc1", "doc1.txt", "machine learning", 16⟩], some [[1, 0]], none⟩
        "machine" 2 =
      .ok [⟨1, "doc1", "doc1.txt", 1, "machine learning", 16, ["machine"], 1, 1⟩] := by
  refine ⟨by with_unfolding_all rfl, by with_unfolding_all rfl, by with_unfolding_all rfl,
    by with_unfolding_all rfl⟩

/-- C8 counterexample: `SearchEngine.search` does not reject a
whitespace-only query (it embeds it and answers normally), and `top_k = 0`
in the cosine strategy silently yields an empty result instead of failing
with a validation condition. -/
theorem claim8_counterexample :
    SearchEngine.search (fun q => q) (fun _ => [1, 0])
        ⟨false, [⟨"doc1", "doc1.txt", "machine learning", 16⟩], some [[1, 0]], none⟩
        "   " 5 =
      .ok [⟨1, "doc1", "doc1.txt", 1, "machine learning", 16, [], 0, 0⟩]
    ∧ SearchEngine.search (fun q => q) (fun _ => [1, 0])
        ⟨false, [⟨"doc1", "doc1.txt", "machine learning", 16⟩], some [[1, 0]], none⟩
        "machine" 0 = .ok [] := by
  refine ⟨by with_unfolding_all rfl, by with_unfolding_all rfl⟩

/-- C8 (amended): once embeddings exist, `SearchEngine.search` itself
validates only the empty (zero-length) query — rejected through the
`ValueError` that `embed_text` raises; a `top_k` of 0 is not rejected and in
the brute-force strategy silently yields the empty result list. -/
theorem claim8_only_empty_query_rejected (sqrtQ : ℚ → ℚ) (embedQ : String → List ℚ)
    (st : EngineState) (E : List (List ℚ)) (hE : st.embeddings = some E)
    (q : String) (k : Nat) :
    SearchEngine.search sqrtQ embedQ st "" k =
      .error (.valueError "Input text must be a non-empty string")
    ∧ (q ≠ "" → st.use_faiss = false →
        SearchEngine.search sqrtQ embedQ st q 0 = .ok []) := by
  constructor
  · unfold SearchEngine.search
    rw [hE]
    simp [embed_textQ]
  · intro hq hf
    unfold SearchEngine.search
    rw [hE]
    simp only [embed_textQ, if_neg hq, hf]
    simp [search_cosine, buildResults]

/-! ### Helper lemmas: the report order and rounding of compute_overlap -/

theorem charEq_of_toNat_eq {a b : Char} (h : a.toNat = b.toNat) : a = b := by
  unfold Char.toNat at h
  exact Char.eq_of_val_eq (UInt32.ext h)

theorem lexLe_total (as bs : List Char) : lexLe as bs = true ∨ lexLe bs as = true := by
  induction as generalizing bs with
  | nil => left; rfl
  | cons a as ih =>
    cases bs with
    | nil => right; rfl
    | cons b bs =>
      by_cases hab : a = b
      · subst hab
        simp only [lexLe, if_pos rfl]
        exact ih bs
      · have hba : ¬ b = a := fun h => hab h.symm
        simp only [lexLe, if_neg hab, if_neg hba, charLe]
        rcases Nat.le_total a.toNat b.toNat with h | h
        · left; exact decide_eq_true h
        · right; exact decide_eq_true h

theorem lexLe_trans (as bs cs : List Char) (h1 : lexLe as bs = true)
    (h2 : lexLe bs cs = true) : lexLe as cs = true := by
  induction as generalizing bs cs with
  | nil => rfl
  | cons a as ih =>
    cases bs with
    | nil => exact absurd h1 (by simp [lexLe])
    | cons b bs =>
      cases cs with
      | nil => exact absurd h2 (by simp [lexLe])
      | cons c cs =>
        by_cases hab : a = b
        · subst hab
          simp only [lexLe, if_pos rfl] at h1
          by_cases hac : a = c
          · subst hac
            simp only [lexLe, if_pos rfl] at h2 ⊢
            exact ih bs cs h1 h2
          · simp only [lexLe, if_neg hac] at h2 ⊢
            exact h2
        · simp only [lexLe, if_neg hab, charLe, decide_eq_true_eq] at h1
          by_cases hbc : b = c
          · subst hbc
            simp only [lexLe, if_neg hab, charLe, decide_eq_true_eq]
            exact h1
          · simp only [lexLe, if_neg hbc, charLe, decide_eq_true_eq] at h2
            by_cases hac : a = c
            · exfalso
              subst hac
              exact hab (charEq_of_toNat_eq (Nat.le_antisymm h1 (le_trans h2 (le_refl _))))
            · simp only [lexLe, if_neg hac, charLe, decide_eq_true_eq]
              exact le_trans h1 h2

instance : IsTotal String strLe :=
  ⟨fun a b => lexLe_total a.data b.data⟩

instance : IsTrans String strLe :=
  ⟨fun a b c => lexLe_trans a.data b.data c.data⟩

theorem roundHalfEven_bounds (y : ℚ) (h0 : 0 ≤ y) (h1 : y ≤ 1000) :
    0 ≤ roundHalfEven y ∧ roundHalfEven y ≤ 1000 := by
  have hf0 : 0 ≤ ⌊y⌋ := Int.floor_nonneg.mpr h0
  have hfle : (⌊y⌋ : ℚ) ≤ y := Int.floor_le y
  have hle1000 : ⌊y⌋ ≤ 1000 := by
    have hq : (⌊y⌋ : ℚ) ≤ 1000 := le_trans hfle h1
    exact_mod_cast hq
  simp only [roundHalfEven]
  split_ifs with hlt hgt heven
  · exact ⟨hf0, hle1000⟩
  · constructor
    · omega
    · have hq : (⌊y⌋ : ℚ) < 1000 - 1 / 2 := by linarith
      have hq2 : (⌊y⌋ : ℚ) < 1000 := by linarith
      have : ⌊y⌋ < 1000 := by exact_mod_cast hq2
      omega
  · exact ⟨hf0, hle1000⟩
  · constructor
    · omega
    · have h2 : 1 / 2 ≤ y - (⌊y⌋ : ℚ) := not_lt.mp hlt
      have hq2 : (⌊y⌋ : ℚ) < 1000 := by linarith
      have : ⌊y⌋ < 1000 := by exact_mod_cast hq2
      omega

theorem pyRound3_bounds (x : ℚ) (h0 : 0 ≤ x) (h1 : x ≤ 1) :
    0 ≤ pyRound3 x ∧ pyRound3 x ≤ 1 := by
  have hy0 : 0 ≤ 1000 * x := by linarith
  have hy1 : 1000 * x ≤ 1000 := by linarith
  obtain ⟨ha, hb⟩ := roundHalfEven_bounds (1000 * x) hy0 hy1
  unfold pyRound3
  constructor
  · apply div_nonneg _ (by norm_num)
    exact_mod_cast ha
  · rw [div_le_one (by norm_num)]
    exact_mod_cast hb

/-! ### Claims about compute_overlap -/

set_option maxRecDepth 4000 in
/-- C9 counterexample: with query keywords {aaa, bbb, ccc} and document
keywords {aaa} the exact intersection ratio is 1/3, but the returned
`overlap_ratio` is `round(1/3, 3) = 0.333 ≠ 1/3`. -/
theorem claim9_counterexample :
    (compute_overlap ["aaa", "bbb", "ccc"] ["aaa"]).overlap_count = 1
    ∧ (compute_overlap ["aaa", "bbb", "ccc"] ["aaa"]).query_keyword_count = 3
    ∧ (compute_overlap ["aaa", "bbb", "ccc"] ["aaa"]).overlap_ratio = 333 / 1000
    ∧ (333 / 1000 : ℚ) ≠ 1 / 3 := by
  refine ⟨by with_unfolding_all decide, by with_unfolding_all decide,
    by with_unfolding_all decide, by with_unfolding_all decide⟩

/-- C9 (amended): `compute_overlap` reports the intersection of the two
keyword sets sorted in the code-point order Python's `sorted` uses,
`overlap_count` is its size, and `overlap_ratio` equals
`round(|intersection| / |query_set|, 3)` — the exact quotient rounded to
three decimals (0 for an empty query list); the reported ratio always lies
in [0, 1]. -/
theorem claim9_overlap_spec (query_keywords doc_keywords : List String) :
    ((compute_overlap query_keywords doc_keywords).overlapping_keywords.Sorted strLe)
    ∧ (∀ s, s ∈ (compute_overlap query_keywords doc_keywords).overlapping_keywords ↔
        s ∈ query_keywords ∧ s ∈ doc_keywords)
    ∧ (compute_overlap query_keywords doc_keywords).overlap_count =
        (compute_overlap query_keywords doc_keywords).overlapping_keywords.length
    ∧ (compute_overlap query_keywords doc_keywords).overlap_ratio =
        pyRound3 (if 0 < query_keywords.dedup.length
          then ((compute_overlap query_keywords doc_keywords).overlap_count : ℚ) /
            (query_keywords.dedup.length : ℚ)
          else 0)
    ∧ (query_keywords = [] →
        (compute_overlap query_keywords doc_keywords).overlap_ratio = 0)
    ∧ 0 ≤ (compute_overlap query_keywords doc_keywords).overlap_ratio
    ∧ (compute_overlap query_keywords doc_keywords).overlap_ratio ≤ 1 := by
  have hkw : (compute_overlap query_keywords doc_keywords).overlapping_keywords =
      List.insertionSort strLe
        (query_keywords.dedup.filter (fun s => decide (s ∈ doc_keywords.dedup))) := rfl
  have hcnt : (compute_overlap query_keywords doc_keywords).overlap_count =
      (query_keywords.dedup.filter (fun s => decide (s ∈ doc_keywords.dedup))).length := rfl
  have hratio : (compute_overlap query_keywords doc_keywords).overlap_ratio =
      pyRound3 (if 0 < query_keywords.dedup.length
        then ((query_keywords.dedup.filter
          (fun s => decide (s ∈ doc_keywords.dedup))).length : ℚ) /
          (query_keywords.dedup.length : ℚ)
        else 0) := rfl
  have hlenle : (query_keywords.dedup.filter
      (fun s => decide (s ∈ doc_keywords.dedup))).length ≤ query_keywords.dedup.length :=
    List.length_filter_le _ _
  have hbounds : (0 : ℚ) ≤
      (if 0 < query_keywords.dedup.length
        then ((query_keywords.dedup.filter
          (fun s => decide (s ∈ doc_keywords.dedup))).length : ℚ) /
          (query_keywords.dedup.length : ℚ)
        else 0)
      ∧ (if 0 < query_keywords.dedup.length
        then ((query_keywords.dedup.filter
          (fun s => decide (s ∈ doc_keywords.dedup))).length : ℚ) /
          (query_keywords.dedup.length : ℚ)
        else 0) ≤ 1 := by
    split_ifs with hq
    · constructor
      · positivity
      · rw [div_le_one (by exact_mod_cast hq)]
        exact_mod_cast hlenle
    · norm_num
  refine ⟨?_, ?_, ?_, ?_, ?_, ?_, ?_⟩
  · rw [hkw]
    exact List.sorted_insertionSort strLe _
  · intro s
    rw [hkw, (List.perm_insertionSort strLe _).mem_iff, List.mem_filter,
      List.mem_dedup, decide_eq_true_eq, List.mem_dedup]
  · rw [hcnt, hkw, (List.perm_insertionSort strLe _).length_eq]
  · rw [hratio, hcnt]
  · intro h
    subst h
    rw [hratio]
    simp [pyRound3, roundHalfEven]
  · rw [hratio]
    exact (pyRound3_bounds _ hbounds.1 hbounds.2).1
  · rw [hratio]
    exact (pyRound3_bounds _ hbounds.1 hbounds.2).2

/-- Witness for C8 (amended) on a concrete single-document cosine engine. -/
theorem claim8_amended_witness :
    (⟨false, [⟨"doc1", "doc1.txt", "machine learning", 16⟩], some [[(1 : ℚ), 0]], none⟩ :
        EngineState).embeddings = some [[(1 : ℚ), 0]]
    ∧ (SearchEngine.search (fun q => q) (fun _ => [1, 0])
          ⟨false, [⟨"doc1", "doc1.txt", "machine learning", 16⟩], some [[(1 : ℚ), 0]], none⟩
          "" 3 =
        .error (.valueError "Input text must be a non-empty string")
      ∧ (("machine" : String) ≠ "" →
          (⟨false, [⟨"doc1", "doc1.txt", "machine learning", 16⟩], some [[(1 : ℚ), 0]],
            none⟩ : EngineState).use_faiss = false →
          SearchEngine.search (fun q => q) (fun _ => [1, 0])
            ⟨false, [⟨"doc1", "doc1.txt", "machine learning", 16⟩], some [[(1 : ℚ), 0]],
              none⟩ "machine" 0 = .ok [])) :=
  ⟨rfl, claim8_only_empty_query_rejected (fun q => q) (fun _ => [1, 0])
    ⟨false, [⟨"doc1", "doc1.txt", "machine learning", 16⟩], some [[(1 : ℚ), 0]], none⟩
    [[(1 : ℚ), 0]] rfl "machine" 3⟩

/-- Witness for C9 (amended) on concrete keyword lists. -/
theorem claim9_witness :
    ((compute_overlap ["bbb", "aaa"] ["aaa"]).overlapping_keywords.Sorted strLe)
    ∧ (∀ s, s ∈ (compute_overlap ["bbb", "aaa"] ["aaa"]).overlapping_keywords ↔
        s ∈ (["bbb", "aaa"] : List String) ∧ s ∈ (["aaa"] : List String))
    ∧ (compute_overlap ["bbb", "aaa"] ["aaa"]).overlap_count =
        (compute_overlap ["bbb", "aaa"] ["aaa"]).overlapping_keywords.length
    ∧ (compute_overlap ["bbb", "aaa"] ["aaa"]).overlap_ratio =
        pyRound3 (if 0 < (["bbb", "aaa"] : List String).dedup.length
          then ((compute_overlap ["bbb", "aaa"] ["aaa"]).overlap_count : ℚ) /
            (((["bbb", "aaa"] : List String).dedup.length : ℚ))
          else 0)
    ∧ ((["bbb", "aaa"] : List String) = [] →
        (compute_overlap ["bbb", "aaa"] ["aaa"]).overlap_ratio = 0)
    ∧ 0 ≤ (compute_overlap ["bbb", "aaa"] ["aaa"]).overlap_ratio
    ∧ (compute_overlap ["bbb", "aaa"] ["aaa"]).overlap_ratio ≤ 1 :=
  claim9_overlap_spec ["bbb", "aaa"] ["aaa"]
